import Mathlib

/-!
Verification of the golink URL shortener (romainlancelot/golink).

The development shallowly embeds the core of the program:
the link store (internal/store/store.go) over an explicit filesystem
model, the JSON persistence format (encoding/json MarshalIndent of a
map from string to string, and its Unmarshal inverse), and the HTTP
handlers of the web package.
-/

namespace GoLink

/-! ### The link mapping

The Go map from string to string is embedded as an association list with
unique keys; lookup, insert-or-overwrite, and removal mirror the map
operations used by the store.
-/

/-- The in-memory link mapping, Go map from string to string. -/
abbrev Links := List (String × String)

/-- Lookup in the mapping, Go map indexing v, ok := m[k]. -/
def lookupk : Links → String → Option String
  | [], _ => none
  | (k', v') :: r, k => if k' = k then some v' else lookupk r k

/-- Insert or overwrite, Go map assignment m[k] = v. -/
def setk : Links → String → String → Links
  | [], k, v => [(k, v)]
  | (k', v') :: r, k, v => if k' = k then (k, v) :: r else (k', v') :: setk r k v

/-- Removal, Go delete(m, k). -/
def delk : Links → String → Links
  | [], _ => []
  | (k', v') :: r, k => if k' = k then delk r k else (k', v') :: delk r k

/-- The representation invariant of a Go map: keys occur at most once. -/
def NodupKeys (l : Links) : Prop := (l.map Prod.fst).Nodup

theorem lookupk_setk_self (l : Links) (k v : String) :
    lookupk (setk l k v) k = some v := by
  induction l with
  | nil => simp [setk, lookupk]
  | cons p r ih =>
    obtain ⟨k', v'⟩ := p
    by_cases h : k' = k <;> simp [setk, lookupk, h, ih]

theorem lookupk_setk_ne (l : Links) (k v q : String) (h : q ≠ k) :
    lookupk (setk l k v) q = lookupk l q := by
  induction l with
  | nil => simp [setk, lookupk, Ne.symm h]
  | cons p r ih =>
    obtain ⟨k', v'⟩ := p
    by_cases hk : k' = k
    · subst hk
      simp [setk, lookupk, Ne.symm h]
    · simp [setk, hk, lookupk, ih]

theorem setk_eq_append_of_not_mem (l : Links) (k v : String)
    (h : k ∉ l.map Prod.fst) : setk l k v = l ++ [(k, v)] := by
  induction l with
  | nil => simp [setk]
  | cons p r ih =>
    obtain ⟨k', v'⟩ := p
    simp only [List.map_cons, List.mem_cons, not_or] at h
    simp [setk, Ne.symm h.1, ih h.2]

/-! ### JSON serialization

The store persists with json.MarshalIndent(m, two-space indent): an object of
string members, one per line, keys sorted, each string escaped as the Go
encoder does (quote, backslash, newline, carriage return, tab; other
control characters, the angle brackets and ampersand, and U+2028/U+2029
as backslash-u sequences).
-/

/-- Opening curly bracket character. -/
def lbrace : Char := Char.ofNat 123

/-- Closing curly bracket character. -/
def rbrace : Char := Char.ofNat 125

/-- Lowercase hexadecimal digit for a value below 16. -/
def hexDig (n : Nat) : Char :=
  if n < 10 then Char.ofNat (48 + n) else Char.ofNat (87 + n)

/-- Escape one character as the Go JSON encoder (with HTML escaping, the
default for json.Marshal) renders it inside a string literal. -/
def escapeChar (c : Char) : List Char :=
  if c = '\"' then ['\\', '\"']
  else if c = '\\' then ['\\', '\\']
  else if c = '\n' then ['\\', 'n']
  else if c = '\r' then ['\\', 'r']
  else if c = '\t' then ['\\', 't']
  else if c.toNat < 32 then
    ['\\', 'u', '0', '0', hexDig (c.toNat / 16), hexDig (c.toNat % 16)]
  else if c = '<' ∨ c = '>' ∨ c = '&' then
    ['\\', 'u', '0', '0', hexDig (c.toNat / 16), hexDig (c.toNat % 16)]
  else if c.toNat = 8232 ∨ c.toNat = 8233 then
    ['\\', 'u', '2', '0', '2', hexDig (c.toNat % 16)]
  else [c]

/-- Escape a whole character sequence. -/
def escapeList : List Char → List Char
  | [] => []
  | c :: r => escapeChar c ++ escapeList r

/-- A JSON string literal: quote, escaped content, quote. -/
def quoteChars (s : String) : List Char :=
  '\"' :: (escapeList s.data ++ ['\"'])

/-- One indented object member, as MarshalIndent prints it. -/
def memberChars (k v : String) : List Char :=
  ' ' :: ' ' :: (quoteChars k ++ ':' :: ' ' :: quoteChars v)

/-- The members joined by comma-newline, as MarshalIndent prints them. -/
def joinMembers : Links → List Char
  | [] => []
  | (k, v) :: [] => memberChars k v
  | (k, v) :: rest => memberChars k v ++ ',' :: '\n' :: joinMembers rest

/-- Key order used by the encoder; the Go encoder emits map keys sorted. -/
def sortKeys (l : Links) : Links :=
  l.insertionSort fun a b => ¬ (b.1 < a.1)

/-- Model of json.MarshalIndent(m, no prefix, two-space indent) on a Go
map, already given as the key-sorted association list. -/
def marshalIndent (l : Links) : String :=
  match l with
  | [] => String.mk [lbrace, rbrace]
  | _ => String.mk (lbrace :: '\n' :: (joinMembers l ++ ['\n', rbrace]))

/-! ### JSON parsing

Model of json.Unmarshal(data, into a map from string to string): a
recursive-descent parser for a JSON object of string members (or the
document null, which leaves the map nil). Recursion is driven by a fuel
counter bounded below by the input length, so totality is structural.
Lone surrogate escapes decode to U+FFFD; surrogate pairs are not
combined in this model (the encoder never emits surrogates).
-/

/-- JSON insignificant whitespace. -/
def isWsChar (c : Char) : Bool :=
  c == ' ' || c == '\t' || c == '\n' || c == '\r'

/-- Drop leading JSON whitespace. -/
def skipWs : List Char → List Char
  | [] => []
  | c :: r => if isWsChar c then skipWs r else c :: r

/-- Value of one hexadecimal digit character. -/
def hexVal (c : Char) : Option Nat :=
  if '0' ≤ c ∧ c ≤ '9' then some (c.toNat - 48)
  else if 'a' ≤ c ∧ c ≤ 'f' then some (c.toNat - 87)
  else if 'A' ≤ c ∧ c ≤ 'F' then some (c.toNat - 55)
  else none

/-- The Unicode replacement character U+FFFD. -/
def repChar : Char := Char.ofNat 0xFFFD

/-- Prepend a decoded character to the pending string-parse result. -/
def mapCons (c : Char) : Option (List Char × List Char) → Option (List Char × List Char)
  | some (s, r) => some (c :: s, r)
  | none => none

/-- Parse the body of a JSON string literal after its opening quote,
returning the decoded characters and the input after the closing quote.
A raw control character below 0x20 is invalid inside a string literal,
as in the encoding/json scanner. -/
def parseStrF : Nat → List Char → Option (List Char × List Char)
  | 0, _ => none
  | _ + 1, [] => none
  | fuel + 1, c :: rest =>
    if c = '\"' then some ([], rest)
    else if c = '\\' then
      match rest with
      | [] => none
      | e :: r2 =>
        if e = '\"' then mapCons '\"' (parseStrF fuel r2)
        else if e = '\\' then mapCons '\\' (parseStrF fuel r2)
        else if e = '/' then mapCons '/' (parseStrF fuel r2)
        else if e = 'b' then mapCons (Char.ofNat 8) (parseStrF fuel r2)
        else if e = 'f' then mapCons (Char.ofNat 12) (parseStrF fuel r2)
        else if e = 'n' then mapCons '\n' (parseStrF fuel r2)
        else if e = 'r' then mapCons '\r' (parseStrF fuel r2)
        else if e = 't' then mapCons '\t' (parseStrF fuel r2)
        else if e = 'u' then
          match r2 with
          | h1 :: h2 :: h3 :: h4 :: r3 =>
            match hexVal h1, hexVal h2, hexVal h3, hexVal h4 with
            | some a, some b, some c2, some d =>
              let n := ((a * 16 + b) * 16 + c2) * 16 + d
              mapCons (if n < 0xD800 ∨ 0xE000 ≤ n then Char.ofNat n else repChar)
                (parseStrF fuel r3)
            | _, _, _, _ => none
          | _ => none
        else none
    else if c.toNat < 32 then none
    else mapCons c (parseStrF fuel rest)

/-- Parse the members of a nonempty JSON object, after its opening
bracket, through its closing bracket. -/
def parsePairsF : Nat → List Char → Option (List (String × String) × List Char)
  | 0, _ => none
  | fuel + 1, l =>
    match skipWs l with
    | [] => none
    | c :: r =>
      if c = '\"' then
        match parseStrF (r.length + 1) r with
        | none => none
        | some (k, r1) =>
          match skipWs r1 with
          | ':' :: r2 =>
            match skipWs r2 with
            | c2 :: r3 =>
              if c2 = '\"' then
                match parseStrF (r3.length + 1) r3 with
                | none => none
                | some (v, r4) =>
                  match skipWs r4 with
                  | ',' :: r5 =>
                    match parsePairsF fuel r5 with
                    | none => none
                    | some (prs, rest) =>
                      some ((String.mk k, String.mk v) :: prs, rest)
                  | c3 :: r5 =>
                    if c3 = rbrace then some ([(String.mk k, String.mk v)], r5)
                    else none
                  | [] => none
              else none
            | [] => none
          | _ => none
      else none

/-- Replay the parsed members into a Go map: a later duplicate key
overwrites an earlier one, as Unmarshal does. -/
def applyPairs : Links → Links → Links
  | acc, [] => acc
  | acc, (k, v) :: r => applyPairs (setk acc k v) r

/-- Finish the object parse: the remainder after the members may hold
only whitespace. -/
def finishPairs : Option (List (String × String) × List Char) → Option Links
  | none => none
  | some (prs, rest) => if skipWs rest = [] then some (applyPairs [] prs) else none

/-- Parse the part of an object document after its opening bracket; the
second argument is that part with leading whitespace dropped. -/
def parseObjBody (r : List Char) : List Char → Option Links
  | [] => none
  | c2 :: r2 =>
    if c2 = rbrace then
      if skipWs r2 = [] then some [] else none
    else finishPairs (parsePairsF (r.length + 1) r)

/-- Parse the document null, after its leading letter n. -/
def parseNull : List Char → Option Links
  | 'u' :: 'l' :: 'l' :: r2 => if skipWs r2 = [] then some [] else none
  | _ => none

/-- Parse a whole document, already stripped of leading whitespace. -/
def parseDoc : List Char → Option Links
  | [] => none
  | c :: r =>
    if c = lbrace then parseObjBody r (skipWs r)
    else if c = 'n' then parseNull r
    else none

/-- Model of json.Unmarshal(data, into a map from string to string). -/
def unmarshal (s : String) : Option Links :=
  parseDoc (skipWs s.data)

/-! ### The serialization round-trip -/

theorem hexVal_hexDig (n : Nat) (h : n < 16) : hexVal (hexDig n) = some n := by
  interval_cases n <;> decide

theorem parseStrF_ustep (f : Nat) (d1 d2 d3 d4 : Char) (a b e g : Nat) (t : List Char)
    (x1 : hexVal d1 = some a) (x2 : hexVal d2 = some b)
    (x3 : hexVal d3 = some e) (x4 : hexVal d4 = some g) :
    parseStrF (f + 1) ('\\' :: 'u' :: d1 :: d2 :: d3 :: d4 :: t)
      = mapCons (if ((a * 16 + b) * 16 + e) * 16 + g < 55296 ∨
            57344 ≤ ((a * 16 + b) * 16 + e) * 16 + g
          then Char.ofNat (((a * 16 + b) * 16 + e) * 16 + g) else repChar)
        (parseStrF f t) := by
  simp [parseStrF, x1, x2, x3, x4]


theorem parseStrF_lit (f : Nat) (c : Char) (t : List Char)
    (h1 : ¬ c = '\"') (h2 : ¬ c = '\\') (h3 : ¬ c.toNat < 32) :
    parseStrF (f + 1) (c :: t) = mapCons c (parseStrF f t) := by
  simp [parseStrF, h1, h2, h3]

theorem parseStrF_escapeChar (c : Char) (f : Nat) (t : List Char) :
    parseStrF (f + 1) (escapeChar c ++ t) = mapCons c (parseStrF f t) := by
  by_cases h1 : c = '\"'
  · subst h1; rfl
  · by_cases h2 : c = '\\'
    · subst h2; rfl
    · by_cases h3 : c = '\n'
      · subst h3; rfl
      · by_cases h4 : c = '\r'
        · subst h4; rfl
        · by_cases h5 : c = '\t'
          · subst h5; rfl
          · by_cases h6 : c.toNat < 32
            · have hE : escapeChar c
                  = ['\\', 'u', '0', '0', hexDig (c.toNat / 16), hexDig (c.toNat % 16)] := by
                unfold escapeChar
                simp [h1, h2, h3, h4, h5, h6]
              have hdiv : c.toNat / 16 < 16 := by omega
              have hmod : c.toNat % 16 < 16 := by omega
              rw [hE]
              simp only [List.cons_append, List.nil_append]
              rw [parseStrF_ustep f '0' '0' _ _ 0 0 (c.toNat / 16) (c.toNat % 16) t rfl rfl
                (hexVal_hexDig _ hdiv) (hexVal_hexDig _ hmod)]
              have harith : ((0 * 16 + 0) * 16 + c.toNat / 16) * 16 + c.toNat % 16
                  = c.toNat := by omega
              rw [harith, if_pos (Or.inl (by omega)), Char.ofNat_toNat]
            · by_cases h7 : c = '<' ∨ c = '>' ∨ c = '&'
              · rcases h7 with h7 | h7 | h7 <;> subst h7 <;> rfl
              · by_cases h8 : c.toNat = 8232 ∨ c.toNat = 8233
                · have hE : escapeChar c
                      = ['\\', 'u', '2', '0', '2', hexDig (c.toNat % 16)] := by
                    unfold escapeChar
                    simp [h1, h2, h3, h4, h5, h6, h7, h8]
                  have hmod : c.toNat % 16 < 16 := by omega
                  rw [hE]
                  simp only [List.cons_append, List.nil_append]
                  rw [parseStrF_ustep f '2' '0' '2' _ 2 0 2 (c.toNat % 16) t rfl rfl rfl
                    (hexVal_hexDig _ hmod)]
                  have harith : ((2 * 16 + 0) * 16 + 2) * 16 + c.toNat % 16 = c.toNat := by
                    omega
                  rw [harith, if_pos (Or.inl (by omega)), Char.ofNat_toNat]
                · have hE : escapeChar c = [c] := by
                    unfold escapeChar
                    simp [h1, h2, h3, h4, h5, h6, h7, h8]
                  rw [hE]
                  simp only [List.cons_append, List.nil_append]
                  exact parseStrF_lit f c t h1 h2 h6

theorem parseStrF_escape (s : List Char) : ∀ (fuel : Nat) (rest : List Char),
    (escapeList s).length < fuel →
    parseStrF fuel (escapeList s ++ '\"' :: rest) = some (s, rest) := by
  induction s with
  | nil =>
    intro fuel rest h
    cases fuel with
    | zero => omega
    | succ f => simp [escapeList, parseStrF]
  | cons c s ih =>
    intro fuel rest h
    cases fuel with
    | zero => omega
    | succ f =>
      have hlen : (escapeList s).length < f := by
        have hc : 1 ≤ (escapeChar c).length := by
          unfold escapeChar
          split_ifs <;> simp
        simp only [escapeList, List.length_append] at h
        omega
      have hstep : escapeList (c :: s) ++ '\"' :: rest
          = escapeChar c ++ (escapeList s ++ '\"' :: rest) := by
        simp [escapeList, List.append_assoc]
      rw [hstep, parseStrF_escapeChar, ih f rest hlen]
      rfl


theorem skipWs_nl (r : List Char) : skipWs ('\n' :: r) = skipWs r := rfl

theorem skipWs_sp (r : List Char) : skipWs (' ' :: r) = skipWs r := rfl

theorem skipWs_quote (r : List Char) : skipWs ('\"' :: r) = '\"' :: r := rfl

theorem skipWs_colon (r : List Char) : skipWs (':' :: r) = ':' :: r := rfl

theorem parsePairsF_step (f : Nat) (k v : String) (X : List Char) :
    parsePairsF (f + 1) ('\n' :: (memberChars k v ++ X))
      = (match skipWs X with
         | ',' :: r5 =>
           (match parsePairsF f r5 with
            | none => none
            | some (prs, rest) => some ((k, v) :: prs, rest))
         | c3 :: r5 => if c3 = rbrace then some ([(k, v)], r5) else none
         | [] => none) := by
  have e1 : '\n' :: (memberChars k v ++ X)
      = '\n' :: ' ' :: ' ' ::
        ('\"' :: (escapeList k.data ++ '\"' :: (':' :: ' ' ::
          ('\"' :: (escapeList v.data ++ '\"' :: X))))) := by
    simp [memberChars, quoteChars, List.append_assoc]
  rw [e1]
  simp only [parsePairsF, skipWs_nl, skipWs_sp, skipWs_quote, skipWs_colon, if_true]
  rw [parseStrF_escape k.data _ _ (by simp [List.length_append]; omega)]
  simp only [skipWs_colon, skipWs_sp, skipWs_quote, if_true]
  rw [parseStrF_escape v.data _ _ (by simp [List.length_append]; omega)]


theorem skipWs_comma (r : List Char) : skipWs (',' :: r) = ',' :: r := rfl

theorem parsePairsF_join (l : Links) : ∀ (fuel : Nat), l ≠ [] → l.length < fuel →
    parsePairsF fuel ('\n' :: (joinMembers l ++ '\n' :: [rbrace])) = some (l, []) := by
  induction l with
  | nil => intro fuel h hl; exact absurd rfl h
  | cons p tl ih =>
    obtain ⟨k, v⟩ := p
    intro fuel hne hlen
    cases fuel with
    | zero => omega
    | succ f =>
      cases tl with
      | nil =>
        rw [show joinMembers [(k, v)] = memberChars k v from rfl, parsePairsF_step]
        rw [show skipWs ('\n' :: [rbrace]) = [rbrace] from rfl]
        split
        · rename_i r5 heq
          injection heq with h1 h2
          exact absurd h1 (by decide)
        · rename_i c3 r5 hne2 heq
          injection heq with h1 h2
          subst h1; subst h2
          simp
        · rename_i heq
          cases heq
      | cons q tl2 =>
        rw [show joinMembers ((k, v) :: q :: tl2)
            = memberChars k v ++ ',' :: '\n' :: joinMembers (q :: tl2) from rfl]
        have e : (memberChars k v ++ ',' :: '\n' :: joinMembers (q :: tl2)) ++ '\n' :: [rbrace]
            = memberChars k v
              ++ (',' :: ('\n' :: (joinMembers (q :: tl2) ++ '\n' :: [rbrace]))) := by
          simp [List.append_assoc]
        rw [e, parsePairsF_step, skipWs_comma]
        simp [ih f (by simp) (by simp at hlen ⊢; omega)]

theorem joinMembers_length_ge (l : Links) : l.length ≤ (joinMembers l).length := by
  induction l with
  | nil => simp [joinMembers]
  | cons p tl ih =>
    obtain ⟨k, v⟩ := p
    cases tl with
    | nil => simp [joinMembers, memberChars, quoteChars]
    | cons q tl2 =>
      simp only [joinMembers, memberChars, List.length_cons, List.length_append] at *
      omega

theorem applyPairs_eq (prs : Links) : ∀ acc : Links,
    ((acc ++ prs).map Prod.fst).Nodup → applyPairs acc prs = acc ++ prs := by
  induction prs with
  | nil => intro acc h; simp [applyPairs]
  | cons p r ih =>
    obtain ⟨k, v⟩ := p
    intro acc h
    have hk : k ∉ acc.map Prod.fst := by
      rw [List.map_append] at h
      rcases List.nodup_append.mp h with ⟨h1, h2, hdisj⟩
      exact fun hmem => hdisj hmem (by simp)
    rw [applyPairs, setk_eq_append_of_not_mem _ _ _ hk]
    rw [ih (acc ++ [(k, v)]) (by simpa [List.append_assoc] using h)]
    simp

theorem skipWs_member (k v : String) (t : List Char) :
    skipWs ('\n' :: (memberChars k v ++ t))
      = '\"' :: (escapeList k.data ++ '\"' :: (':' :: ' ' ::
          ('\"' :: (escapeList v.data ++ '\"' :: t)))) := by
  simp [memberChars, quoteChars, List.append_assoc, skipWs_nl, skipWs_sp, skipWs_quote]

theorem unmarshal_marshalIndent (m : Links) (hnd : NodupKeys m) :
    unmarshal (marshalIndent m) = some m := by
  cases m with
  | nil => rfl
  | cons p tl =>
    obtain ⟨k, v⟩ := p
    rw [show marshalIndent ((k, v) :: tl)
        = String.mk (lbrace :: '\n' :: (joinMembers ((k, v) :: tl) ++ '\n' :: [rbrace]))
        from rfl]
    rw [show unmarshal (String.mk (lbrace :: '\n' ::
          (joinMembers ((k, v) :: tl) ++ '\n' :: [rbrace])))
        = parseDoc (lbrace :: '\n' :: (joinMembers ((k, v) :: tl) ++ '\n' :: [rbrace]))
        from rfl]
    rw [parseDoc, if_pos rfl]
    obtain ⟨t, ht⟩ : ∃ t, joinMembers ((k, v) :: tl) ++ '\n' :: [rbrace]
        = memberChars k v ++ t := by
      cases tl with
      | nil => exact ⟨'\n' :: [rbrace], by simp [joinMembers]⟩
      | cons q tl2 =>
        exact ⟨',' :: '\n' :: (joinMembers (q :: tl2) ++ '\n' :: [rbrace]),
          by simp [joinMembers, List.append_assoc]⟩
    have hz : skipWs ('\n' :: (joinMembers ((k, v) :: tl) ++ '\n' :: [rbrace]))
        = '\"' :: (escapeList k.data ++ '\"' :: (':' :: ' ' ::
            ('\"' :: (escapeList v.data ++ '\"' :: t)))) := by
      rw [ht, skipWs_member]
    rw [hz, parseObjBody, if_neg (by decide : ¬ ('\"' : Char) = rbrace)]
    have hfuel : ((k, v) :: tl).length
        < ('\n' :: (joinMembers ((k, v) :: tl) ++ '\n' :: [rbrace])).length + 1 := by
      have := joinMembers_length_ge ((k, v) :: tl)
      simp only [List.length_cons, List.length_append] at *
      omega
    rw [parsePairsF_join ((k, v) :: tl) _ (by simp) hfuel]
    rw [finishPairs, if_pos (show skipWs ([] : List Char) = [] from rfl)]
    rw [applyPairs_eq _ [] (by simpa [NodupKeys] using hnd)]
    simp

/-! ### Sorting the keys preserves the mapping -/

theorem sortKeys_perm (l : Links) : List.Perm (sortKeys l) l :=
  List.perm_insertionSort _ l

theorem nodupKeys_sortKeys (l : Links) (h : NodupKeys l) : NodupKeys (sortKeys l) :=
  (((sortKeys_perm l).map Prod.fst).nodup_iff).mpr h

theorem lookupk_eq_of_perm (l1 l2 : Links) (h : List.Perm l1 l2) :
    NodupKeys l1 → ∀ q, lookupk l1 q = lookupk l2 q := by
  induction h with
  | nil => intro _ q; rfl
  | cons x h ih =>
    intro nd q
    obtain ⟨k, v⟩ := x
    have ndt := (List.nodup_cons.mp nd).2
    by_cases hk : k = q <;> simp [lookupk, hk, ih ndt q]
  | swap x y l =>
    intro nd q
    obtain ⟨k1, v1⟩ := x
    obtain ⟨k2, v2⟩ := y
    have hne : k2 ≠ k1 := by
      have := (List.nodup_cons.mp nd).1
      simp at this
      exact this.1
    by_cases h1 : k2 = q
    · subst h1
      simp [lookupk, Ne.symm hne]
    · by_cases h2 : k1 = q <;> simp [lookupk, h1, h2]
  | trans h1 h2 ih1 ih2 =>
    intro nd q
    rw [ih1 nd q, ih2 (((h1.map Prod.fst).nodup_iff).mp nd) q]

/-! ### The filesystem model

The persistence of the store uses three filesystem operations: os.ReadFile
(modelled as a lookup in a path-to-content map), os.WriteFile on the
sibling temporary path, and os.Rename, which atomically replaces the
destination with the source. The environment flags writeOk and renameOk
inject I/O failures (disk full, permissions); a failed call leaves the
destination path untouched.
-/

/-- The filesystem: a map from path to file content, plus the fault
environment for the next write and rename calls. -/
structure Fs where
  files : List (String × String)
  writeOk : Bool
  renameOk : Bool
deriving DecidableEq

/-- A mutating filesystem call issued by the store. -/
inductive FsOp where
  | write (path content : String)
  | rename (src dst : String)
deriving DecidableEq

/-- Apply one successful filesystem call. -/
def applyFsOp (fs : Fs) : FsOp → Fs
  | .write p c => { fs with files := setk fs.files p c }
  | .rename src dst =>
    match lookupk fs.files src with
    | some c => { fs with files := setk (delk fs.files src) dst c }
    | none => fs

/-- Apply a sequence of successful filesystem calls. -/
def applyFsOps (fs : Fs) (ops : List FsOp) : Fs := ops.foldl applyFsOp fs

/-- The sibling temporary path used by Store.save: dbFile plus a .tmp
suffix. -/
def tmpPath (dbFile : String) : String := dbFile ++ ".tmp"

/-- Result of a persistence pass: the Go error as a success flag, the
filesystem afterwards, and the mutating calls that were issued and
succeeded. -/
structure SaveOut where
  ok : Bool
  fs : Fs
  ops : List FsOp

/-- Model of Store.save: marshal the full mapping (keys sorted, as the
encoder emits them), write it to the temporary path, then rename the
temporary file over the database file. -/
def saveStore (dbFile : String) (links : Links) (fs : Fs) : SaveOut :=
  let data := marshalIndent (sortKeys links)
  let tmp := tmpPath dbFile
  if fs.writeOk then
    let fs1 := applyFsOp fs (.write tmp data)
    if fs.renameOk then
      ⟨true, applyFsOp fs1 (.rename tmp dbFile), [.write tmp data, .rename tmp dbFile]⟩
    else ⟨false, fs1, [.write tmp data]⟩
  else ⟨false, fs, []⟩

/-- Model of Store.load: a missing file or an empty file yields the
empty mapping; otherwise the content must unmarshal. -/
def loadStore (dbFile : String) (fs : Fs) : Except String Links :=
  match lookupk fs.files dbFile with
  | none => Except.ok []
  | some data =>
    if data = "" then Except.ok []
    else
      match unmarshal data with
      | some links => Except.ok links
      | none => Except.error "decode"

/-! ### The store -/

/-- The Store of internal/store/store.go: the guarded in-memory mapping,
the database file path, and the filesystem it persists to. -/
structure Store where
  links : Links
  dbFile : String
  fs : Fs
deriving DecidableEq

/-- Result of a store operation: the returned value, the store
afterwards, the filesystem calls issued, and how many persistence passes
ran. -/
structure OpOut (α : Type) where
  res : α
  st : Store
  ops : List FsOp
  saves : Nat
deriving DecidableEq

/-- Model of Store.New: load the links from the database file. -/
def Store.New (dbFile : String) (fs : Fs) : Except String Store :=
  (loadStore dbFile fs).map fun links => ⟨links, dbFile, fs⟩

/-- Model of Store.Get. -/
def Store.Get (st : Store) (key : String) : Option String :=
  lookupk st.links key

/-- Model of Store.Set: insert or overwrite, then persist; the result is
true when the persistence pass succeeded (Go returns its error). -/
def Store.Set (st : Store) (key url : String) : OpOut Bool :=
  let links2 := setk st.links key url
  let s := saveStore st.dbFile links2 st.fs
  ⟨s.ok, { st with links := links2, fs := s.fs }, s.ops, 1⟩

/-- Model of Store.Delete: the result is the pair (deleted, no error). -/
def Store.Delete (st : Store) (key : String) : OpOut (Bool × Bool) :=
  match lookupk st.links key with
  | none => ⟨(false, true), st, [], 0⟩
  | some _ =>
    let links2 := delk st.links key
    let s := saveStore st.dbFile links2 st.fs
    ⟨(true, s.ok), { st with links := links2, fs := s.fs }, s.ops, 1⟩

/-- Model of Store.Update: the result is the pair (updated, no error). -/
def Store.Update (st : Store) (key newURL : String) : OpOut (Bool × Bool) :=
  match lookupk st.links key with
  | none => ⟨(false, true), st, [], 0⟩
  | some _ =>
    let links2 := setk st.links key newURL
    let s := saveStore st.dbFile links2 st.fs
    ⟨(true, s.ok), { st with links := links2, fs := s.fs }, s.ops, 1⟩

/-- Model of Store.Save, the forced persistence pass used at shutdown. -/
def Store.SavePass (st : Store) : OpOut Bool :=
  let s := saveStore st.dbFile st.links st.fs
  ⟨s.ok, { st with fs := s.fs }, s.ops, 1⟩

/-! ### URL parsing and escaping

Model of the parts of the Go net/url package used by the handlers:
Parse and QueryEscape. Parse covers scheme extraction with lowercasing,
control-character rejection in the pre-fragment part, the query and
fragment cuts, authority splitting at the last at sign, and the
validation performed by parseAuthority, parseHost, setPath and
setFragment: the host byte class and its percent-escape rule, the
optional-port digits, the userinfo byte class, and plain two-hex-digit
percent escapes in userinfo, path and fragment. The host field is kept
as the raw (not percent-decoded) text; only its emptiness is observed
by the claims.
-/

/-- A parsed URL: the fields validateURL and the spec care about. -/
structure GoURL where
  scheme : String
  host : String
deriving DecidableEq

/-- An ASCII control byte, rejected by url.Parse anywhere in the input. -/
def isCtlByte (c : Char) : Bool := c.toNat < 32 || c.toNat == 127

/-- Scheme extraction of url.Parse: scan letters, digits, plus, minus
and dot up to a colon; the first character must be a letter; a colon
first is the missing-protocol-scheme error; any other byte means the
URL has no scheme. Go lowercases the extracted scheme. -/
def getSchemeAux (orig : List Char) : List Char → List Char → Nat → Option (String × List Char)
  | [], _, _ => some ("", orig)
  | c :: r, acc, i =>
    if c.isAlpha then getSchemeAux orig r (acc ++ [c]) (i + 1)
    else if c.isDigit || c == '+' || c == '-' || c == '.' then
      if i == 0 then some ("", orig)
      else getSchemeAux orig r (acc ++ [c]) (i + 1)
    else if c == ':' then
      if i == 0 then none
      else some (String.mk (acc.map Char.toLower), r)
    else some ("", orig)

/-- The host part of an authority: what follows the last at sign. -/
def afterLastAt (l : List Char) : List Char :=
  ((l.reverse.takeWhile fun c => !(c == '@')).reverse)

/-- The percent-escape scan of net/url unescape: every percent sign
must begin a triple of percent and two hexadecimal digits. -/
def escOk : List Char → Bool
  | [] => true
  | c :: r =>
    if c = '%' then
      match r with
      | a :: b :: r2 => (hexVal a).isSome && (hexVal b).isSome && escOk r2
      | _ => false
    else escOk r

/-- Host byte validity of net/url shouldEscape in host mode: ASCII must
be alphanumeric, a mark, or a permitted sub-delimiter; bytes outside
ASCII pass through. -/
def hostCharOk (c : Char) : Bool :=
  128 ≤ c.toNat || c.isAlphanum ||
  c == '-' || c == '_' || c == '.' || c == '~' ||
  c == '!' || c == '$' || c == '&' || c == Char.ofNat 39 || c == '(' || c == ')' ||
  c == '*' || c == '+' || c == ',' || c == ';' || c == '=' || c == ':' ||
  c == '[' || c == ']' || c == '<' || c == '>' || c == '\"'

/-- The host scan of net/url unescape in host mode: every byte is in
the host class, and an escape must reach 0x80 unless it is the escaped
percent sign itself. -/
def hostOk : List Char → Bool
  | [] => true
  | c :: r =>
    if c = '%' then
      match r with
      | a :: b :: r2 =>
        (hexVal a).isSome && (hexVal b).isSome &&
          (8 ≤ (hexVal a).getD 0 || (a == '2' && b == '5')) && hostOk r2
      | _ => false
    else hostCharOk c && hostOk r

/-- The zone scan of net/url unescape in zone mode: the host class with
plain percent escapes. -/
def zoneOk : List Char → Bool
  | [] => true
  | c :: r =>
    if c = '%' then
      match r with
      | a :: b :: r2 => (hexVal a).isSome && (hexVal b).isSome && zoneOk r2
      | _ => false
    else hostCharOk c && zoneOk r

/-- Model of validOptionalPort applied after the last colon of a
non-bracketed host: digits only, possibly none. -/
def portOk (host : List Char) : Bool :=
  if host.contains ':' then
    (host.reverse.takeWhile fun c => !(c == ':')).all Char.isDigit
  else true

/-- Split a bracketed host at the first percent-two-five zone marker,
when one exists. -/
def findZone : List Char → Option (List Char × List Char)
  | [] => none
  | '%' :: '2' :: '5' :: r => some ([], '%' :: '2' :: '5' :: r)
  | c :: r => (findZone r).map fun p => (c :: p.1, p.2)

/-- Model of parseHost validity: a bracketed host needs its closing
bracket and a digit port after it, with the zone part scanned in zone
mode; any other host checks the port after its last colon and the host
scan. -/
def parseHostOk (host : List Char) : Bool :=
  match host with
  | '[' :: _ =>
    if host.contains ']' then
      let after := (host.reverse.takeWhile fun c => !(c == ']')).reverse
      let upto := host.take (host.length - after.length - 1)
      (after.isEmpty || (after.head? == some ':' && (after.drop 1).all Char.isDigit)) &&
        (match findZone upto with
         | none => hostOk host
         | some (pre, zonePart) => hostOk pre && zoneOk zonePart && hostOk (']' :: after))
    else false
  | _ => portOk host && hostOk host

/-- Userinfo byte validity of net/url validUserinfo; runes outside the
listed ASCII set, non-ASCII included, are invalid. -/
def userinfoCharOk (c : Char) : Bool :=
  c.isAlphanum ||
  c == '-' || c == '.' || c == '_' || c == ':' || c == '~' ||
  c == '!' || c == '$' || c == '&' || c == Char.ofNat 39 || c == '(' || c == ')' ||
  c == '*' || c == '+' || c == ',' || c == ';' || c == '=' || c == '%' || c == '@'

/-- Userinfo validity: the byte class plus plain percent escapes, as
validUserinfo followed by unescape of the user and password parts. -/
def userinfoOk (l : List Char) : Bool := l.all userinfoCharOk && escOk l

/-- Model of url.Parse, reduced to the scheme and host fields plus the
error behavior: the fragment is cut at the first hash and checked for
escapes, control bytes are rejected in the rest, the query is cut at
the first question mark unchecked, an authority is validated through
parseHostOk and userinfoOk with its path escape-checked, a rootless
rest with a scheme is opaque and unchecked, and a rooted or schemeless
rest is escape-checked as the path. -/
def parseURL (raw : String) : Option GoURL :=
  let pre := raw.data.takeWhile fun c => !(c == '#')
  let frag := raw.data.drop (pre.length + 1)
  if pre.any isCtlByte then none
  else if !escOk frag then none
  else
    match getSchemeAux pre pre [] 0 with
    | none => none
    | some (scheme, rest) =>
      let rest2 := rest.takeWhile fun c => !(c == '?')
      if rest2.take 2 = ['/', '/'] then
        let afterSlashes := rest2.drop 2
        let auth := afterSlashes.takeWhile fun c => !(c == '/')
        let path := afterSlashes.drop auth.length
        let hostPart := afterLastAt auth
        let userLen := auth.length - hostPart.length
        let user := auth.take (userLen - 1)
        if (userLen == 0 || userinfoOk user) && parseHostOk hostPart && escOk path then
          some ⟨scheme, String.mk hostPart⟩
        else none
      else if scheme = "" ∨ rest2.head? = some '/' then
        if escOk rest2 then some ⟨scheme, ""⟩ else none
      else some ⟨scheme, ""⟩

/-- Model of validateURL of the web package: url.Parse must succeed and
the parsed scheme must be exactly http or https. -/
def validateURL (raw : String) : Bool :=
  match parseURL raw with
  | none => false
  | some u => u.scheme == "http" || u.scheme == "https"

/-- Uppercase hexadecimal digit for a value below 16. -/
def hexUpper (n : Nat) : Char :=
  if n < 10 then Char.ofNat (48 + n) else Char.ofNat (55 + n)

/-- UTF-8 bytes of a code point. -/
def utf8Bytes (n : Nat) : List Nat :=
  if n < 128 then [n]
  else if n < 2048 then [192 + n / 64, 128 + n % 64]
  else if n < 65536 then [224 + n / 4096, 128 + (n / 64) % 64, 128 + n % 64]
  else [240 + n / 262144, 128 + (n / 4096) % 64, 128 + (n / 64) % 64, 128 + n % 64]

/-- Percent-escape one byte, uppercase hex as Go emits it. -/
def escByte (b : Nat) : List Char := ['%', hexUpper (b / 16), hexUpper (b % 16)]

/-- Model of url.QueryEscape on one character: letters, digits and the
four unreserved marks pass through, space becomes plus, anything else is
percent-escaped bytewise. -/
def queryEscapeChar (c : Char) : List Char :=
  if c.isAlphanum || c == '-' || c == '_' || c == '.' || c == '~' then [c]
  else if c == ' ' then ['+']
  else (utf8Bytes c.toNat).foldr (fun b acc => escByte b ++ acc) []

/-- Model of url.QueryEscape. -/
def queryEscape (s : String) : String :=
  String.mk (s.data.foldr (fun c acc => queryEscapeChar c ++ acc) [])

/-! ### Go string helpers used by the handlers -/

/-- Model of unicode.IsSpace, the character class trimmed by
strings.TrimSpace. -/
def goIsSpace (c : Char) : Bool :=
  c == ' ' || c == '\t' || c == '\n' || c == Char.ofNat 11 || c == Char.ofNat 12 ||
  c == '\r' || c.toNat == 133 || c.toNat == 160 || c.toNat == 5760 ||
  (8192 ≤ c.toNat && c.toNat ≤ 8202) || c.toNat == 8232 || c.toNat == 8233 ||
  c.toNat == 8239 || c.toNat == 8287 || c.toNat == 12288

/-- Model of strings.TrimSpace. -/
def trimSpace (s : String) : String :=
  String.mk (((s.data.dropWhile goIsSpace).reverse.dropWhile goIsSpace).reverse)

/-- Model of strings.Trim(path, slash): drop leading and trailing
slashes. -/
def trimSlashes (s : String) : String :=
  String.mk ((((s.data.dropWhile fun c => c == '/').reverse.dropWhile
    fun c => c == '/').reverse))

/-- Split at the first slash: the part before it and, when a slash
exists, the remainder after it. -/
def breakSlash : List Char → List Char × Option (List Char)
  | [] => ([], none)
  | c :: r =>
    if c = '/' then ([], some r)
    else
      let p := breakSlash r
      (c :: p.1, p.2)

/-- Model of strings.SplitN(path, slash, 3). -/
def splitN3 (s : String) : List String :=
  match breakSlash s.data with
  | (p0, none) => [String.mk p0]
  | (p0, some r1) =>
    match breakSlash r1 with
    | (p1, none) => [String.mk p0, String.mk p1]
    | (p1, some r2) => [String.mk p0, String.mk p1, String.mk r2]

/-- The key alphabet of validKeyRegex: ASCII letters, digits, underscore
and hyphen. -/
def isKeyChar (c : Char) : Bool := c.isAlphanum || c == '_' || c == '-'

/-- Model of validKeyRegex.MatchString: one or more characters of the
restricted alphabet. -/
def validKeyMatch (s : String) : Bool := !s.isEmpty && s.data.all isKeyChar

/-! ### The HTTP handlers (the web package)

Requests carry the method string, the URL path, the Host header, the
parsed form fields and the query; responses carry the status code and
the Location header set by http.Redirect. Handler results also expose
the store afterwards and the persistence activity, so the theorems can
speak about mutation and disk writes.
-/

/-- Key length limit of the web package. -/
def maxKeyLength : Nat := 50

/-- URL length limit of the web package. -/
def maxURLLength : Nat := 2048

/-- An inbound HTTP request. -/
structure Request where
  method : String
  path : String
  host : String
  form : List (String × String)
  query : List (String × String)

/-- Model of r.FormValue: the field value, or empty when absent. -/
def formValue (r : Request) (key : String) : String :=
  (lookupk r.form key).getD ""

/-- An outbound response: status code and optional Location header. -/
structure Response where
  status : Nat
  location : Option String
deriving DecidableEq

/-- A handler result: the response, the store afterwards, the
filesystem calls issued, and the number of persistence passes. -/
structure HandlerOut where
  resp : Response
  st : Store
  ops : List FsOp
  saves : Nat
deriving DecidableEq

/-- Model of Handler.createLink. -/
def createLink (st : Store) (r : Request) : HandlerOut :=
  let key := trimSpace (formValue r "key")
  let rawURL := trimSpace (formValue r "url")
  if key == "" || rawURL == "" then ⟨⟨400, none⟩, st, [], 0⟩
  else if key.utf8ByteSize > maxKeyLength || rawURL.utf8ByteSize > maxURLLength then
    ⟨⟨400, none⟩, st, [], 0⟩
  else if !validKeyMatch key then ⟨⟨400, none⟩, st, [], 0⟩
  else if !validateURL rawURL then ⟨⟨400, none⟩, st, [], 0⟩
  else
    let o := Store.Set st key rawURL
    if o.res then ⟨⟨303, some "/"⟩, o.st, o.ops, o.saves⟩
    else ⟨⟨500, none⟩, o.st, o.ops, o.saves⟩

/-- Model of Handler.deleteLink. -/
def deleteLink (st : Store) (r : Request) (key : String) : HandlerOut :=
  if r.method != "POST" && r.method != "DELETE" then ⟨⟨405, none⟩, st, [], 0⟩
  else
    let o := Store.Delete st key
    if !o.res.2 then ⟨⟨500, none⟩, o.st, o.ops, o.saves⟩
    else if !o.res.1 then ⟨⟨404, none⟩, o.st, o.ops, o.saves⟩
    else if r.method == "POST" then ⟨⟨303, some "/"⟩, o.st, o.ops, o.saves⟩
    else ⟨⟨204, none⟩, o.st, o.ops, o.saves⟩

/-- Model of Handler.updateLink. -/
def updateLink (st : Store) (r : Request) (key : String) : HandlerOut :=
  if r.method != "POST" && r.method != "PUT" then ⟨⟨405, none⟩, st, [], 0⟩
  else
    let rawURL := trimSpace (formValue r "url")
    if rawURL == "" then ⟨⟨400, none⟩, st, [], 0⟩
    else if rawURL.utf8ByteSize > maxURLLength then ⟨⟨400, none⟩, st, [], 0⟩
    else if !validateURL rawURL then ⟨⟨400, none⟩, st, [], 0⟩
    else
      let o := Store.Update st key rawURL
      if !o.res.2 then ⟨⟨500, none⟩, o.st, o.ops, o.saves⟩
      else if !o.res.1 then ⟨⟨404, none⟩, o.st, o.ops, o.saves⟩
      else if r.method == "POST" then ⟨⟨303, some "/"⟩, o.st, o.ops, o.saves⟩
      else ⟨⟨204, none⟩, o.st, o.ops, o.saves⟩

/-- Model of Handler.handleAPI: split the path into at most three parts
and dispatch on the action. -/
def handleAPI (st : Store) (r : Request) (path : String) : HandlerOut :=
  let parts := splitN3 path
  if parts.length < 3 || parts.getD 2 "" == "" then ⟨⟨400, none⟩, st, [], 0⟩
  else if parts.getD 1 "" == "delete" then deleteLink st r (parts.getD 2 "")
  else if parts.getD 1 "" == "update" then updateLink st r (parts.getD 2 "")
  else ⟨⟨404, none⟩, st, [], 0⟩

/-- Model of Handler.handleRedirect: 302 to the stored destination, or
307 to the creation form with the key prefilled. -/
def handleRedirect (st : Store) (key : String) : HandlerOut :=
  match Store.Get st key with
  | some dest => ⟨⟨302, some dest⟩, st, [], 0⟩
  | none => ⟨⟨307, some ("/?key=" ++ queryEscape key)⟩, st, [], 0⟩

/-- Model of Handler.handleRoot: POST creates, anything else renders the
management interface (the excluded view layer; 200 with no redirect). -/
def handleRoot (st : Store) (r : Request) : HandlerOut :=
  if r.method == "POST" then createLink st r
  else ⟨⟨200, none⟩, st, [], 0⟩

/-- Model of strings.HasPrefix(path, the api segment): the first four
characters are a, p, i, slash. -/
def hasAPIHead (s : String) : Bool := s.data.take 4 == ['a', 'p', 'i', '/']

/-- Model of Handler.ServeHTTP: trim slashes from the path, then
dispatch to the root page, the API, or redirect-by-key. -/
def serveHTTP (st : Store) (r : Request) : HandlerOut :=
  let path := trimSlashes r.path
  if path == "" then handleRoot st r
  else if hasAPIHead path then handleAPI st r path
  else handleRedirect st path

/-- The host portion of the Host header: Go splits at the colon and
keeps the first part. -/
def hostName (h : String) : String :=
  String.mk (h.data.takeWhile fun c => !(c == ':'))

/-- Model of the server mux of internal/server: requests whose host is
the shortener name are handled by the web handler; every other request
is reverse-proxied to the Pi-hole upstream (none here). -/
def serverRoute (st : Store) (r : Request) : Option HandlerOut :=
  if hostName r.host == "go" || hostName r.host == "go.local" then
    some (serveHTTP st r)
  else none

/-- Modelled from the spec: the entrypoint cmd/golink/main.go is not in
the sources; per the spec, it builds the store with Store.New at startup
and a load failure is fatal: the process exits non-zero instead of
continuing with an empty store. Startup is modelled as propagating the
load error. -/
def mainStartup (dbFile : String) (fs : Fs) : Except String Store :=
  Store.New dbFile fs


/-! ### Helper lemmas about persistence -/

theorem tmpPath_ne (db : String) : tmpPath db ≠ db := by
  intro h
  have h2 := congrArg String.length h
  rw [tmpPath, String.length_append,
    show (".tmp" : String).length = 4 from rfl] at h2
  omega

theorem saveStore_ok (db : String) (links : Links) (fs : Fs)
    (hw : fs.writeOk = true) (hr : fs.renameOk = true) :
    (saveStore db links fs).ok = true ∧
      lookupk (saveStore db links fs).fs.files db
        = some (marshalIndent (sortKeys links)) := by
  constructor
  · simp [saveStore, hw, hr]
  · simp only [saveStore, hw, hr, if_true, applyFsOp, lookupk_setk_self]


/-! ### Claim theorems -/

/-- C2: every persistence pass serializes the full mapping as indented
JSON, writes it to the sibling temporary path, then atomically renames
the temporary file over the database path; after any prefix of its
filesystem calls (any crash point) the database file holds either the
previous complete version or the new complete version, a successful pass
leaves the new version, and the pass performs exactly those calls. -/
theorem claim_save_atomic (db : String) (links : Links) (fs : Fs) :
    ((saveStore db links fs).ops = [] ∨
      (saveStore db links fs).ops
        = [FsOp.write (tmpPath db) (marshalIndent (sortKeys links))] ∨
      (saveStore db links fs).ops
        = [FsOp.write (tmpPath db) (marshalIndent (sortKeys links)),
           FsOp.rename (tmpPath db) db]) ∧
    (∀ n : Nat,
      lookupk (applyFsOps fs ((saveStore db links fs).ops.take n)).files db
          = lookupk fs.files db ∨
      lookupk (applyFsOps fs ((saveStore db links fs).ops.take n)).files db
          = some (marshalIndent (sortKeys links))) ∧
    ((saveStore db links fs).ok = true →
      lookupk (saveStore db links fs).fs.files db
        = some (marshalIndent (sortKeys links))) ∧
    (saveStore db links fs).fs = applyFsOps fs (saveStore db links fs).ops := by
  have hne : db ≠ tmpPath db := (tmpPath_ne db).symm
  cases hw : fs.writeOk with
  | false =>
    refine ⟨Or.inl ?_, ?_, ?_, ?_⟩
    · simp [saveStore, hw]
    · intro n
      left
      simp [saveStore, hw, applyFsOps]
    · intro hok
      simp [saveStore, hw] at hok
    · simp [saveStore, hw, applyFsOps]
  | true =>
    cases hr : fs.renameOk with
    | false =>
      refine ⟨Or.inr (Or.inl ?_), ?_, ?_, ?_⟩
      · simp [saveStore, hw, hr]
      · intro n
        match n with
        | 0 => left; simp [saveStore, hw, hr, applyFsOps]
        | m + 1 =>
          left
          simp [saveStore, hw, hr, List.take_succ_cons, applyFsOps, applyFsOp,
            lookupk_setk_ne _ _ _ _ hne]
      · intro hok
        simp [saveStore, hw, hr] at hok
      · simp [saveStore, hw, hr, applyFsOps, applyFsOp]
    | true =>
      refine ⟨Or.inr (Or.inr ?_), ?_, ?_, ?_⟩
      · simp [saveStore, hw, hr]
      · intro n
        match n with
        | 0 => left; simp [saveStore, hw, hr, applyFsOps]
        | 1 =>
          left
          simp [saveStore, hw, hr, List.take_succ_cons, applyFsOps, applyFsOp,
            lookupk_setk_ne _ _ _ _ hne]
        | m + 2 =>
          right
          simp [saveStore, hw, hr, List.take_succ_cons, applyFsOps, applyFsOp,
            lookupk_setk_self]
      · intro _
        exact (saveStore_ok db links fs hw hr).2
      · simp [saveStore, hw, hr, applyFsOps, applyFsOp]


/-- A sample filesystem on which writes and renames succeed. -/
def okFs : Fs := ⟨[], true, true⟩

/-- A sample filesystem on which writes fail. -/
def badFs : Fs := ⟨[], false, true⟩

/-- A sample store with one link. -/
def sampleStore : Store := ⟨[("gh", "https://github.com")], "go_links.json", okFs⟩

/-- C2 witness: a successful pass on a concrete store leaves the new
serialization at the database path. -/
theorem claim_save_atomic_witness :
    lookupk (saveStore "go_links.json" [("gh", "u")] okFs).fs.files "go_links.json"
      = some (marshalIndent (sortKeys [("gh", "u")])) :=
  (claim_save_atomic "go_links.json" [("gh", "u")] okFs).2.2.1 rfl

/-- C3: Update and Delete on an absent key return false, leave the
store untouched, issue no filesystem call, and run no persistence
pass. -/
theorem claim_absent_noop (st : Store) (key url : String)
    (h : Store.Get st key = none) :
    Store.Update st key url = ⟨(false, true), st, [], 0⟩ ∧
    Store.Delete st key = ⟨(false, true), st, [], 0⟩ := by
  have h' : lookupk st.links key = none := h
  constructor <;> simp [Store.Update, Store.Delete, h']

/-- C3 witness: the no-op on a concrete store with an absent key. -/
theorem claim_absent_noop_witness :
    Store.Update sampleStore "zz" "http://x" = ⟨(false, true), sampleStore, [], 0⟩ ∧
    Store.Delete sampleStore "zz" = ⟨(false, true), sampleStore, [], 0⟩ :=
  claim_absent_noop sampleStore "zz" "http://x" rfl

/-- C4: Set inserts or overwrites unconditionally; when the persistence
pass fails, Set returns the error, yet the in-memory mapping keeps the
new binding. -/
theorem claim_set_keeps_memory_on_save_failure (st : Store) (key url : String)
    (h : st.fs.writeOk = false ∨ st.fs.renameOk = false) :
    (Store.Set st key url).res = false ∧
    (Store.Set st key url).st.links = setk st.links key url ∧
    Store.Get (Store.Set st key url).st key = some url := by
  refine ⟨?_, rfl, ?_⟩
  · rcases h with h | h
    · simp [Store.Set, saveStore, h]
    · cases hw : st.fs.writeOk <;> simp [Store.Set, saveStore, h, hw]
  · exact lookupk_setk_self st.links key url

/-- C4 witness: a failing disk on a concrete store still leaves the new
binding readable in memory. -/
theorem claim_set_keeps_memory_on_save_failure_witness :
    (Store.Set ⟨[], "db", badFs⟩ "gh" "https://github.com").res = false ∧
    (Store.Set ⟨[], "db", badFs⟩ "gh" "https://github.com").st.links
      = setk [] "gh" "https://github.com" ∧
    Store.Get (Store.Set ⟨[], "db", badFs⟩ "gh" "https://github.com").st "gh"
      = some "https://github.com" :=
  claim_set_keeps_memory_on_save_failure ⟨[], "db", badFs⟩ "gh" "https://github.com"
    (Or.inl rfl)

/-- C5: an existing database file holding nonempty invalid JSON makes
the load fail with a decode error, and the modelled startup propagates
it fatally instead of continuing with an empty store. -/
theorem claim_load_corrupt_fatal (db : String) (fs : Fs) (data : String)
    (hfile : lookupk fs.files db = some data) (hne : data ≠ "")
    (hbad : unmarshal data = none) :
    loadStore db fs = Except.error "decode" ∧
    mainStartup db fs = Except.error "decode" := by
  have h1 : loadStore db fs = Except.error "decode" := by
    simp [loadStore, hfile, hne, hbad]
  exact ⟨h1, by simp [mainStartup, Store.New, h1, Except.map]⟩

/-- C5 witness: a concrete corrupt file is fatal at startup. -/
theorem claim_load_corrupt_fatal_witness :
    loadStore "db" ⟨[("db", "not json")], true, true⟩ = Except.error "decode" ∧
    mainStartup "db" ⟨[("db", "not json")], true, true⟩ = Except.error "decode" :=
  claim_load_corrupt_fatal "db" ⟨[("db", "not json")], true, true⟩ "not json"
    rfl (by decide) (by decide)

/-- C10: URL validation checks only that the parse succeeds and that
the parsed scheme is exactly http or https; it constrains the host not
at all, and accepts the string http:// whose host is empty. -/
theorem claim_validate_scheme_only :
    (∀ s u, parseURL s = some u →
      (validateURL s = true ↔ (u.scheme = "http" ∨ u.scheme = "https"))) ∧
    validateURL "http://" = true ∧
    parseURL "http://" = some ⟨"http", ""⟩ := by
  refine ⟨?_, by decide, by decide⟩
  intro s u h
  simp [validateURL, h]

/-- C10 witness: the concrete accepted input http:// has empty host. -/
theorem claim_validate_scheme_only_witness :
    validateURL "http://" = true ∧ parseURL "http://" = some ⟨"http", ""⟩ :=
  ⟨claim_validate_scheme_only.2.1, claim_validate_scheme_only.2.2⟩


theorem marshalIndent_ne_empty (l : Links) : marshalIndent l ≠ "" := by
  intro h
  have h2 := congrArg String.data h
  cases l <;> simp [marshalIndent] at h2

/-- C1: Set then Get returns the stored URL; loading from the file
written by a successful persistence pass reconstructs an identical
mapping. -/
theorem claim_roundtrip (st : Store) (key url : String)
    (db : String) (links : Links) (fs : Fs) :
    ((Store.Set st key url).res = true →
      Store.Get (Store.Set st key url).st key = some url) ∧
    (NodupKeys links → fs.writeOk = true → fs.renameOk = true →
      (saveStore db links fs).ok = true ∧
      ∃ links2, loadStore db (saveStore db links fs).fs = Except.ok links2 ∧
        ∀ q, lookupk links2 q = lookupk links q) := by
  constructor
  · intro _
    exact lookupk_setk_self st.links key url
  · intro hnd hw hr
    obtain ⟨hok, hfile⟩ := saveStore_ok db links fs hw hr
    refine ⟨hok, sortKeys links, ?_, ?_⟩
    · have hdata : marshalIndent (sortKeys links) ≠ "" := marshalIndent_ne_empty _
      have hun : unmarshal (marshalIndent (sortKeys links)) = some (sortKeys links) :=
        unmarshal_marshalIndent _ (nodupKeys_sortKeys links hnd)
      simp [loadStore, hfile, hdata, hun]
    · intro q
      exact lookupk_eq_of_perm _ _ (sortKeys_perm links) (nodupKeys_sortKeys links hnd) q

/-- C1 witness: the round trip on a concrete store and mapping. -/
theorem claim_roundtrip_witness :
    Store.Get (Store.Set sampleStore "gh2" "https://x").st "gh2" = some "https://x" ∧
    (saveStore "db" [("gh", "u")] okFs).ok = true ∧
    ∃ links2, loadStore "db" (saveStore "db" [("gh", "u")] okFs).fs = Except.ok links2 ∧
      ∀ q, lookupk links2 q = lookupk [("gh", "u")] q := by
  obtain ⟨h1, h2⟩ := claim_roundtrip sampleStore "gh2" "https://x" "db" [("gh", "u")] okFs
  exact ⟨h1 rfl, h2 (by unfold NodupKeys; decide) rfl rfl⟩


/-- C7: on the shortener host, a nonempty non-api path is looked up as
a key: present gives 302 to the stored destination, absent gives 307 to
the creation form with the key query-escaped; the store is unchanged and
no disk activity happens in either case. -/
theorem claim_redirect (st : Store) (r : Request) (p : String)
    (hhost : hostName r.host = "go" ∨ hostName r.host = "go.local")
    (hp : trimSlashes r.path = p) (hne : p ≠ "") (hapi : hasAPIHead p = false) :
    (∀ dest, Store.Get st p = some dest →
      serverRoute st r = some ⟨⟨302, some dest⟩, st, [], 0⟩) ∧
    (Store.Get st p = none →
      serverRoute st r = some ⟨⟨307, some ("/?key=" ++ queryEscape p)⟩, st, [], 0⟩) := by
  have hroute : serverRoute st r = some (serveHTTP st r) := by
    rcases hhost with h | h <;> simp [serverRoute, h]
  have hserve : serveHTTP st r = handleRedirect st p := by
    simp [serveHTTP, hp, hne, hapi]
  constructor
  · intro dest hd
    rw [hroute, hserve]
    simp [handleRedirect, hd]
  · intro hd
    rw [hroute, hserve]
    simp [handleRedirect, hd]

/-- C7 witness: on a concrete store, a stored key redirects 302 to its
destination and an unknown key redirects 307 to the prefilled form. -/
theorem claim_redirect_witness :
    serverRoute sampleStore ⟨"GET", "/gh", "go", [], []⟩
      = some ⟨⟨302, some "https://github.com"⟩, sampleStore, [], 0⟩ ∧
    serverRoute sampleStore ⟨"GET", "/unknown", "go.local", [], []⟩
      = some ⟨⟨307, some "/?key=unknown"⟩, sampleStore, [], 0⟩ := by
  constructor
  · exact (claim_redirect sampleStore ⟨"GET", "/gh", "go", [], []⟩ "gh"
      (Or.inl rfl) rfl (by decide) (by decide)).1 "https://github.com" rfl
  · have h := (claim_redirect sampleStore ⟨"GET", "/unknown", "go.local", [], []⟩ "unknown"
      (Or.inr rfl) rfl (by decide) (by decide)).2 rfl
    rwa [show "/?key=" ++ queryEscape "unknown" = "/?key=unknown" from by decide] at h


end GoLink
